import Mathlib

/-!
Verification of the reconciliation engine of `src/app.py`
(Vendor Reconciliation Dashboard).

The Python source manipulates pandas dataframes; here each pipeline stage is
embedded as a pure Lean function over lists of records.  Amount cells are
modelled as exact rationals (`ℚ`); `pd.to_numeric(..., errors="coerce")` is
modelled as an optional decimal parser (sign, digits, optional fractional
part — the fragment exercised by the data in question), and pandas/numpy
`round(2)` as round-half-to-even at two fractional digits, which is the
rounding mode numpy implements.  The `thefuzz` scorer used by
`process.extractOne` is an external library function and is taken as a
parameter `score : String → String → ℕ`; `extractOne` itself (Python
`max(..., key=score)`: keep the current best, replace only on a strictly
greater score) is embedded explicitly.
-/

namespace ReconDash

/- ### Identifier normalization, the `clean_id` pipeline
`df[inv_col].astype(str).str.replace(r'\W+','',regex=True).str.upper().str.lstrip('0')`
(src/app.py lines 25-30 and 60-65).  Python `\W` matches characters that are
not word characters; word characters are letters, digits and the underscore,
so the underscore survives the replacement. -/

def isWordChar (c : Char) : Bool := c.isAlphanum || c == '_'

def clean_id (s : String) : String :=
  String.mk (((s.toList.filter isWordChar).map Char.toUpper).dropWhile (fun c => c == '0'))

/-- The normalization algorithm as the spec words it for claim C1: strip every
character that is not a letter or digit, uppercase, strip leading zeros. -/
def normalize_identifier_spec (s : String) : String :=
  String.mk (((s.toList.filter (fun c => c.isAlpha || c.isDigit)).map Char.toUpper).dropWhile (fun c => c == '0'))

/-- The amended normalization statement: strip every character that is not a
letter, a digit or an underscore (Python `\W`), uppercase, strip leading
zeros. -/
def normalize_identifier_amended (s : String) : String :=
  String.mk (((s.toList.filter (fun c => c.isAlpha || c.isDigit || c == '_')).map Char.toUpper).dropWhile (fun c => c == '0'))

/- ### Amount normalization, the `clean_amount` pipeline
`.str.replace(r'[,$\s]','',regex=True)` then
`pd.to_numeric(..., errors='coerce').fillna(0).round(2)`; the internal side
additionally applies `.abs()` before rounding (src/app.py 32-39 and 67-74). -/

def stripAmountChars (s : String) : List Char :=
  s.toList.filter (fun c => !(c == ',' || c == '$' || c.isWhitespace))

def digitsNat (l : List Char) : ℕ :=
  l.foldl (fun a c => a * 10 + (c.toNat - 48)) 0

/-- Parse an unsigned decimal numeral: digits, optionally followed by a point
and further digits; at least one digit overall. -/
def parseUnsignedDec (l : List Char) : Option ℚ :=
  let ip := l.takeWhile Char.isDigit
  let rest := l.dropWhile Char.isDigit
  match rest with
  | [] => if ip.isEmpty then none else some ((digitsNat ip : ℚ))
  | '.' :: fp =>
      if fp.all Char.isDigit && !(ip.isEmpty && fp.isEmpty) then
        some ((digitsNat ip : ℚ) + (digitsNat fp : ℚ) / ((10 : ℚ) ^ fp.length))
      else none
  | _ => none

/-- Model of `pd.to_numeric(cell, errors='coerce')` on the already-stripped
cell text: an optional sign followed by a decimal numeral; anything else
(including a leading parenthesis) coerces to missing. -/
def toNumericCoerce (l : List Char) : Option ℚ :=
  match l with
  | '-' :: rest => (parseUnsignedDec rest).map (fun q => -q)
  | '+' :: rest => parseUnsignedDec rest
  | _ => parseUnsignedDec l

/-- Round-half-to-even to an integer, the rounding mode of `np.round`. -/
def roundHalfEvenInt (x : ℚ) : ℤ :=
  let n := ⌊x⌋
  let r := x - (n : ℚ)
  if r < 1/2 then n
  else if 1/2 < r then n + 1
  else if n % 2 = 0 then n else n + 1

/-- Model of `np.round(x, 2)`: scale by 100, round half to even, scale back. -/
def roundHalfEven2 (x : ℚ) : ℚ := ((roundHalfEvenInt (x * 100) : ℤ) : ℚ) / 100

/-- Rounding to 2 places with ties away from zero upward ("standard half-up"),
as the spec words it for claim C8. -/
def roundHalfUp2 (x : ℚ) : ℚ := ((⌊x * 100 + 1/2⌋ : ℤ) : ℚ) / 100

/-- Vendor side: `to_numeric(...).fillna(0).round(2)`. -/
def clean_amount_vendor (s : String) : ℚ :=
  roundHalfEven2 ((toNumericCoerce (stripAmountChars s)).getD 0)

/-- Internal side: `to_numeric(...).fillna(0).abs().round(2)`. -/
def clean_amount_internal (s : String) : ℚ :=
  roundHalfEven2 |(toNumericCoerce (stripAmountChars s)).getD 0|

/- ### Schema resolution (src/app.py lines 13-23 and 48-58)
Column headers are stripped of surrounding whitespace and lowercased, then
the first header containing the hard-coded keywords is picked with
`next(...)`; if either lookup yields `None` a `ValueError` is raised.  (A
matching header necessarily contains a keyword and hence is non-empty, so the
truthiness test `if not inv_col` coincides with the `None` test.) -/

def lowerStrip (s : String) : String :=
  String.mk ((((s.toList.dropWhile Char.isWhitespace).reverse.dropWhile Char.isWhitespace).reverse).map Char.toLower)

/-- Whether `needle` occurs at the head of the second list. -/
def headMatch : List Char → List Char → Bool
  | [], _ => true
  | _ :: _, [] => false
  | a :: as, b :: bs => a == b && headMatch as bs

/-- Python substring containment `needle in hay`. -/
def containsSub (needle : List Char) : List Char → Bool
  | [] => headMatch needle []
  | h :: t => headMatch needle (h :: t) || containsSub needle t

def strContains (hay needle : String) : Bool := containsSub needle.toList hay.toList

def vendorInvPred (c : String) : Bool := strContains c "invoice" || strContains c "inv"

def vendorAmtPred (c : String) : Bool := strContains c "amount" || strContains c "due"

def internalInvPred (c : String) : Bool := strContains c "external" && strContains c "document"

def internalAmtPred (c : String) : Bool := strContains c "amount"

/-- Vendor-side schema resolution: `none` models the raised
`ValueError("Vendor invoice/amount columns not found")`. -/
def resolveVendorSchema (cols : List String) : Option (String × String) :=
  let cs := cols.map lowerStrip
  match cs.find? vendorInvPred, cs.find? vendorAmtPred with
  | some ic, some ac => some (ic, ac)
  | _, _ => none

/-- Internal-side schema resolution: `none` models the raised
`ValueError("Internal required columns missing")`. -/
def resolveInternalSchema (cols : List String) : Option (String × String) :=
  let cs := cols.map lowerStrip
  match cs.find? internalInvPred, cs.find? internalAmtPred with
  | some ic, some ac => some (ic, ac)
  | _, _ => none

/- ### The outer join (src/app.py lines 159-165)
`pd.merge(vendor, internal, on="clean_id", how="outer")`.  A normalized side
is a list of `(clean_id, clean_amount)` records.  Pandas pairs every left row
with every right row sharing its key (a cartesian product per key, no
collapsing of duplicates), emits a left-only row when a key has no right
partner, and appends right-only rows for keys absent on the left. -/

structure NormRec where
  clean_id : String
  clean_amount : ℚ
deriving DecidableEq

structure MergedRow where
  clean_id : String
  amount_vendor : Option ℚ
  amount_internal : Option ℚ
deriving DecidableEq

def vendorRows (internal : List NormRec) (vr : NormRec) : List MergedRow :=
  let ms := internal.filter (fun ir => ir.clean_id == vr.clean_id)
  if ms.isEmpty then [⟨vr.clean_id, some vr.clean_amount, none⟩]
  else ms.map (fun ir => ⟨vr.clean_id, some vr.clean_amount, some ir.clean_amount⟩)

def merge (vendor internal : List NormRec) : List MergedRow :=
  vendor.flatMap (vendorRows internal)
    ++ (internal.filter (fun ir => !(vendor.any (fun vr => vr.clean_id == ir.clean_id)))).map
        (fun ir => ⟨ir.clean_id, none, some ir.clean_amount⟩)

/-- Number of merged rows carrying key `k`. -/
def keyCount (k : String) (l : List MergedRow) : ℕ :=
  l.countP (fun r => r.clean_id == k)

/-- Number of normalized records carrying key `k`. -/
def recCount (k : String) (l : List NormRec) : ℕ :=
  l.countP (fun r => r.clean_id == k)

/- ### Variance and status (src/app.py lines 167-181) -/

/-- Model of `recon['Variance'] = (vendor.fillna(0) - internal.fillna(0)).round(2)`. -/
def variance_of (mv mi : Option ℚ) : ℚ := roundHalfEven2 (mv.getD 0 - mi.getD 0)

/-- Status classification `get_status` exactly as in the source: missing vendor side first, then
missing internal side, then the `abs(Variance) > 0.05` test, else matched. -/
def get_status (v i : Option ℚ) (variance : ℚ) : String :=
  if v.isNone then "Missing in Vendor"
  else if i.isNone then "Missing in Books"
  else if |variance| > 5/100 then "Amount Mismatch"
  else "Matched"

/-- A fully classified reconciliation row (after the renaming to
`Invoice Number` / `As per Vendor` / `As per Books`). -/
structure StatusRow where
  invoice : String
  vendorAmt : Option ℚ
  booksAmt : Option ℚ
  variance : ℚ
  status : String
deriving DecidableEq

def statusRowOfMerged (m : MergedRow) : StatusRow :=
  let va := variance_of m.amount_vendor m.amount_internal
  ⟨m.clean_id, m.amount_vendor, m.amount_internal, va,
    get_status m.amount_vendor m.amount_internal va⟩

/- ### Fuzzy suggestion pass (src/app.py lines 110-127)
`choices = internal_df['clean_id'].dropna().unique().tolist()` keeps the
first occurrence of each key in order; `clean_id` is produced by
`.astype(str)` so it is never missing and `dropna` is the identity here.
`process.extractOne` from the external `thefuzz` library computes
`max(candidates, key=score)`: it scans the pool left to right keeping the
current best and replacing it only on a strictly greater score, so the first
of several top-scoring candidates wins.  The library scorer is modelled as an
explicit parameter `score`. -/

def dedupFirst : List String → List String
  | [] => []
  | h :: t => h :: (dedupFirst t).filter (fun x => !(x == h))

def choicesOf (internal : List NormRec) : List String :=
  dedupFirst (internal.map NormRec.clean_id)

def extractOneAux (score : String → String → ℕ) (q : String) :
    Option (String × ℕ) → List String → Option (String × ℕ)
  | best, [] => best
  | none, c :: cs => extractOneAux score q (some (c, score q c)) cs
  | some (b, bs), c :: cs =>
      if bs < score q c then extractOneAux score q (some (c, score q c)) cs
      else extractOneAux score q (some (b, bs)) cs

def extractOne (score : String → String → ℕ) (q : String) (choices : List String) :
    Option (String × ℕ) :=
  extractOneAux score q none choices

/-- Python `row['As per Vendor'] > 0`: a missing value compares as not
greater. -/
def vendorGtZero : Option ℚ → Bool
  | some a => decide (0 < a)
  | none => false

def fuzzy_row (score : String → String → ℕ) (threshold : ℕ) (choices : List String)
    (r : StatusRow) : StatusRow :=
  if r.status == "Missing in Books" && vendorGtZero r.vendorAmt
      && decide (6 ≤ r.invoice.length) && !choices.isEmpty then
    match extractOne score r.invoice choices with
    | some (m, s) =>
        if threshold ≤ s then
          { r with status := "Suggested Match: " ++ m ++ " (" ++ toString s ++ "%)" }
        else r
    | none => r
  else r

def perform_fuzzy_check (score : String → String → ℕ) (recon : List StatusRow)
    (internal : List NormRec) (threshold : ℕ) : List StatusRow :=
  recon.map (fuzzy_row score threshold (choicesOf internal))

/- ### Buckets (src/app.py lines 192-196) -/

def other_exceptions_df (recon : List StatusRow) : List StatusRow :=
  recon.filter (fun r => !(r.status == "Missing in Vendor" || r.status == "Matched"))

def missing_vendor_df (recon : List StatusRow) : List StatusRow :=
  recon.filter (fun r => r.status == "Missing in Vendor")

def matched_df (recon : List StatusRow) : List StatusRow :=
  recon.filter (fun r => r.status == "Matched")

/- ### Statements taken verbatim from the spec, for comparison with the code -/

/-- The identifier keyword list claim C7 attributes to the schema resolver. -/
def specIdKeywords : List String :=
  ["inv", "num", "id", "ref", "voucher", "external document number"]

/-- The amount keyword list claim C7 attributes to the schema resolver. -/
def specAmtKeywords : List String :=
  ["amt", "val", "total", "amount", "due", "price"]

/-- Per claim C7 an identifier candidate exists when some column name
contains one of the identifier keywords after case-folding and trimming. -/
def specHasIdCandidate (cols : List String) : Bool :=
  cols.any (fun c => specIdKeywords.any (fun kw => strContains (lowerStrip c) kw))

/-- Per claim C7 an amount candidate exists when some column name contains
one of the amount keywords after case-folding and trimming. -/
def specHasAmtCandidate (cols : List String) : Bool :=
  cols.any (fun c => specAmtKeywords.any (fun kw => strContains (lowerStrip c) kw))

/-- Candidate `c` is the first element of `pool` attaining the maximal score: everything
before it scores strictly less, everything after it scores no more. -/
def IsFirstMax (score : String → ℕ) (pool : List String) (c : String) : Prop :=
  ∃ l1 l2, pool = l1 ++ c :: l2 ∧ (∀ x ∈ l1, score x < score c) ∧ (∀ x ∈ l2, score x ≤ score c)

/-! ## Theorems -/

/-- C1 (counterexample).  The claim is false on the code in two ways: the
regex `\W+` keeps underscores, so `"0_1"` normalizes to `"_1"` while the
claimed strip-to-letters-and-digits algorithm gives `"1"`; and
`lstrip('0')` removes only string-leading zeros, so `"INV-0042"` normalizes
to `"INV0042"`, not to `"42"` as the claim asserts. -/
theorem C1_counterexample :
    clean_id "INV-0042" = "INV0042" ∧ ("INV0042" : String) ≠ "42" ∧
    clean_id "00042" = "42" ∧
    clean_id "0_1" = "_1" ∧ normalize_identifier_spec "0_1" = "1" ∧
    ("_1" : String) ≠ "1" := by
  decide

/-- C1 (amended).  `clean_id` strips every character that is not a letter,
digit or underscore, uppercases the remainder, and strips leading `'0'`
characters of the resulting string; consequently `"00042"` and `"42"` both
normalize to `"42"`, but `"INV-0042"` normalizes to `"INV0042"` because its
zeros are not string-leading. -/
theorem C1_amended (s : String) :
    clean_id s = normalize_identifier_amended s ∧
    clean_id "00042" = "42" ∧ clean_id "42" = "42" ∧ clean_id "INV-0042" = "INV0042" := by
  refine ⟨?_, by decide, by decide, by decide⟩
  have hp : ∀ c : Char, isWordChar c = (c.isAlpha || c.isDigit || c == '_') := by
    intro c
    simp [isWordChar, Char.isAlphanum, Bool.or_assoc]
  rw [clean_id, normalize_identifier_amended,
    List.filter_congr (fun a _ => hp a)]

/-- C4 (counterexample).  The amount pipeline never rewrites parentheses to a
minus sign: `"(1,234.50)"` keeps its parentheses after the `[,$\s]` strip,
fails numeric coercion, and defaults to `0` rather than `-1234.50`. -/
theorem C4_counterexample :
    clean_amount_vendor "(1,234.50)" = 0 ∧ (0 : ℚ) ≠ -(2469/2) := by
  constructor
  · have hs : stripAmountChars "(1,234.50)" = ['(', '1', '2', '3', '4', '.', '5', '0', ')'] := by
      decide
    have hp : toNumericCoerce ['(', '1', '2', '3', '4', '.', '5', '0', ')'] = none := by rfl
    rw [clean_amount_vendor, hs, hp, Option.getD_none, roundHalfEven2, roundHalfEvenInt]
    norm_num
  · norm_num

/-- C4 (amended).  A value wrapped in parentheses is not interpreted as
negative: the parentheses survive the currency/separator strip, the numeric
coercion fails on them, and the amount defaults to `0`; stripping currency
symbols and separators works as claimed, so `"$1,234.50"` parses to
`1234.50`. -/
theorem C4_amended :
    clean_amount_vendor "(1,234.50)" = 0 ∧
    toNumericCoerce (stripAmountChars "(1,234.50)") = none ∧
    clean_amount_vendor "$1,234.50" = 2469/2 := by
  have hs : stripAmountChars "(1,234.50)" = ['(', '1', '2', '3', '4', '.', '5', '0', ')'] := by
    decide
  have hp : toNumericCoerce ['(', '1', '2', '3', '4', '.', '5', '0', ')'] = none := by rfl
  refine ⟨?_, by rw [hs]; exact hp, ?_⟩
  · rw [clean_amount_vendor, hs, hp, Option.getD_none, roundHalfEven2, roundHalfEvenInt]
    norm_num
  · have hs2 : stripAmountChars "$1,234.50" = ['1', '2', '3', '4', '.', '5', '0'] := by decide
    have hp2 : toNumericCoerce ['1', '2', '3', '4', '.', '5', '0']
        = some ((digitsNat ['1', '2', '3', '4'] : ℚ) + (digitsNat ['5', '0'] : ℚ) / 10 ^ 2) := by
      rfl
    have h1 : digitsNat ['1', '2', '3', '4'] = 1234 := by decide
    have h2 : digitsNat ['5', '0'] = 50 := by decide
    rw [clean_amount_vendor, hs2, hp2, h1, h2]
    have hv : ((1234 : ℕ) : ℚ) + ((50 : ℕ) : ℚ) / 10 ^ 2 = 2469/2 := by norm_num
    rw [Option.getD_some, hv]
    have hf : ((2469 : ℚ)/2) * 100 = ((123450 : ℤ) : ℚ) := by norm_num
    rw [roundHalfEven2, roundHalfEvenInt, hf, Int.floor_intCast]
    norm_num

/-- C6 (confirmed).  `get_status` tests missingness of the vendor amount
first (regardless of the internal amount, including an internal amount of
`0`), missingness of the internal amount second, and only then compares
`|variance|` against `0.05` with a strict `>`: a variance of exactly `0.05`
classifies as `Matched` and `0.0501` as `Amount Mismatch`. -/
theorem C6_get_status_priority :
    (∀ (i : Option ℚ) (v : ℚ), get_status none i v = "Missing in Vendor") ∧
    (∀ (a : ℚ) (v : ℚ), get_status (some a) none v = "Missing in Books") ∧
    (∀ (a b v : ℚ), |v| > 5/100 → get_status (some a) (some b) v = "Amount Mismatch") ∧
    (∀ (a b v : ℚ), ¬(|v| > 5/100) → get_status (some a) (some b) v = "Matched") ∧
    get_status (some 0) (some 0) (5/100) = "Matched" ∧
    get_status (some 0) (some 0) (501/10000) = "Amount Mismatch" := by
  refine ⟨fun i v => rfl, fun a v => rfl, ?_, ?_, ?_, ?_⟩
  · intro a b v h
    simp [get_status, h]
  · intro a b v h
    simp [get_status, h]
  · rw [get_status]
    norm_num [abs_of_nonneg]
  · rw [get_status]
    norm_num [abs_of_nonneg]

/-- Witness for C6 at concrete inputs. -/
theorem C6_witness :
    get_status (some 1) (some 1) (3/2) = "Amount Mismatch" ∧
    get_status (some 1) (some 1) (1/100) = "Matched" :=
  ⟨C6_get_status_priority.2.2.1 1 1 (3/2) (by rw [abs_of_nonneg] <;> norm_num),
   C6_get_status_priority.2.2.2.1 1 1 (1/100) (by rw [abs_of_nonneg] <;> norm_num)⟩

/-- The three bucket filters exactly account for every classified row. -/
theorem bucket_length_sum (recon : List StatusRow) :
    (other_exceptions_df recon).length + (missing_vendor_df recon).length
      + (matched_df recon).length = recon.length := by
  induction recon with
  | nil => rfl
  | cons h t ih =>
    simp only [other_exceptions_df, missing_vendor_df, matched_df, List.filter_cons,
      Bool.not_or] at ih ⊢
    by_cases h1 : h.status = "Missing in Vendor"
    · have hb1 : (h.status == "Missing in Vendor") = true := beq_iff_eq.mpr h1
      have hb2 : (h.status == "Matched") = false := by rw [h1]; decide
      simp only [hb1, hb2, Bool.not_true, Bool.not_false, Bool.false_and, Bool.and_true,
        Bool.false_eq_true, if_false, if_true, List.length_cons]
      omega
    · by_cases h2 : h.status = "Matched"
      · have hb1 : (h.status == "Missing in Vendor") = false := by rw [h2]; decide
        have hb2 : (h.status == "Matched") = true := beq_iff_eq.mpr h2
        simp only [hb1, hb2, Bool.not_true, Bool.not_false, Bool.true_and, Bool.and_false,
          Bool.false_eq_true, if_false, if_true, List.length_cons]
        omega
      · have hb1 : (h.status == "Missing in Vendor") = false := beq_eq_false_iff_ne.mpr h1
        have hb2 : (h.status == "Matched") = false := beq_eq_false_iff_ne.mpr h2
        simp only [hb1, hb2, Bool.not_false, Bool.true_and,
          Bool.false_eq_true, if_false, if_true, List.length_cons]
        omega

/-- C10 (confirmed).  The three display/export buckets are filters on the
status column that partition the classified rows: every row lands in exactly
one bucket, each bucket is a sublist of the input (no row is mutated or
invented), and the bucket sizes sum to the input size. -/
theorem C10_buckets_partition (recon : List StatusRow) :
    (∀ r ∈ recon,
      (r ∈ other_exceptions_df recon ∧ r ∉ missing_vendor_df recon ∧ r ∉ matched_df recon) ∨
      (r ∉ other_exceptions_df recon ∧ r ∈ missing_vendor_df recon ∧ r ∉ matched_df recon) ∨
      (r ∉ other_exceptions_df recon ∧ r ∉ missing_vendor_df recon ∧ r ∈ matched_df recon)) ∧
    (other_exceptions_df recon).Sublist recon ∧
    (missing_vendor_df recon).Sublist recon ∧
    (matched_df recon).Sublist recon ∧
    (other_exceptions_df recon).length + (missing_vendor_df recon).length
      + (matched_df recon).length = recon.length := by
  refine ⟨?_, List.filter_sublist _, List.filter_sublist _, List.filter_sublist _, ?_⟩
  · intro r hr
    by_cases h1 : r.status = "Missing in Vendor"
    · refine Or.inr (Or.inl ⟨?_, ?_, ?_⟩)
      · simp [other_exceptions_df, List.mem_filter, h1]
      · simp [missing_vendor_df, List.mem_filter, hr, h1]
      · simp [matched_df, List.mem_filter, h1]
    · by_cases h2 : r.status = "Matched"
      · refine Or.inr (Or.inr ⟨?_, ?_, ?_⟩)
        · simp [other_exceptions_df, List.mem_filter, h2]
        · simp [missing_vendor_df, List.mem_filter, h2]
        · simp [matched_df, List.mem_filter, hr, h2]
      · refine Or.inl ⟨?_, ?_, ?_⟩
        · simp [other_exceptions_df, List.mem_filter, hr, h1, h2]
        · simp [missing_vendor_df, List.mem_filter, h1]
        · simp [matched_df, List.mem_filter, h2]
  · exact bucket_length_sum recon

/-- Witness for C10 on a concrete one-row input. -/
theorem C10_witness :
    ((⟨"A", some 1, some 1, 0, "Matched"⟩ : StatusRow)
        ∈ other_exceptions_df [⟨"A", some 1, some 1, 0, "Matched"⟩]
      ∧ (⟨"A", some 1, some 1, 0, "Matched"⟩ : StatusRow)
        ∉ missing_vendor_df [⟨"A", some 1, some 1, 0, "Matched"⟩]
      ∧ (⟨"A", some 1, some 1, 0, "Matched"⟩ : StatusRow)
        ∉ matched_df [⟨"A", some 1, some 1, 0, "Matched"⟩]) ∨
    ((⟨"A", some 1, some 1, 0, "Matched"⟩ : StatusRow)
        ∉ other_exceptions_df [⟨"A", some 1, some 1, 0, "Matched"⟩]
      ∧ (⟨"A", some 1, some 1, 0, "Matched"⟩ : StatusRow)
        ∈ missing_vendor_df [⟨"A", some 1, some 1, 0, "Matched"⟩]
      ∧ (⟨"A", some 1, some 1, 0, "Matched"⟩ : StatusRow)
        ∉ matched_df [⟨"A", some 1, some 1, 0, "Matched"⟩]) ∨
    ((⟨"A", some 1, some 1, 0, "Matched"⟩ : StatusRow)
        ∉ other_exceptions_df [⟨"A", some 1, some 1, 0, "Matched"⟩]
      ∧ (⟨"A", some 1, some 1, 0, "Matched"⟩ : StatusRow)
        ∉ missing_vendor_df [⟨"A", some 1, some 1, 0, "Matched"⟩]
      ∧ (⟨"A", some 1, some 1, 0, "Matched"⟩ : StatusRow)
        ∈ matched_df [⟨"A", some 1, some 1, 0, "Matched"⟩]) :=
  (C10_buckets_partition [⟨"A", some 1, some 1, 0, "Matched"⟩]).1
    ⟨"A", some 1, some 1, 0, "Matched"⟩ (List.mem_singleton.mpr rfl)

/-- Rows generated for one vendor record: one per matching internal record,
or a single left-only row when no internal record shares the key. -/
theorem keyCount_vendorRows (i : List NormRec) (vr : NormRec) (k : String) :
    keyCount k (vendorRows i vr) =
      if vr.clean_id = k then (if recCount k i = 0 then 1 else recCount k i) else 0 := by
  rw [keyCount, vendorRows]
  by_cases hv : vr.clean_id = k
  · rw [if_pos hv]
    have hms : i.filter (fun ir => ir.clean_id == vr.clean_id)
        = i.filter (fun ir => ir.clean_id == k) := by rw [hv]
    have hlen : (i.filter (fun ir => ir.clean_id == k)).length = recCount k i :=
      (List.countP_eq_length_filter _ _).symm
    by_cases he : (i.filter (fun ir => ir.clean_id == vr.clean_id)).isEmpty
    · rw [if_pos he]
      have he2 : i.filter (fun ir => ir.clean_id == k) = [] := by
        rw [← hms]
        exact List.isEmpty_iff.mp he
      have h0 : recCount k i = 0 := by
        rw [← hlen, he2]
        rfl
      rw [h0]
      simp [List.countP_cons, hv]
    · rw [if_neg he]
      have h0 : recCount k i ≠ 0 := by
        intro hc
        apply he
        rw [hms, List.isEmpty_iff, ← List.length_eq_zero, hlen]
        exact hc
      rw [List.countP_map]
      have hconst : (fun (r : MergedRow) => r.clean_id == k)
            ∘ (fun (ir : NormRec) =>
                (⟨vr.clean_id, some vr.clean_amount, some ir.clean_amount⟩ : MergedRow))
          = fun _ => true := by
        funext ir
        simp [hv]
      rw [hconst, if_neg h0, List.countP_true, hms, hlen]
  · rw [if_neg hv]
    have hne : (vr.clean_id == k) = false := beq_eq_false_iff_ne.mpr hv
    by_cases he : (i.filter (fun ir => ir.clean_id == vr.clean_id)).isEmpty
    · rw [if_pos he]
      simp [List.countP_cons, hne]
    · rw [if_neg he, List.countP_map]
      have hconst : (fun (r : MergedRow) => r.clean_id == k)
            ∘ (fun (ir : NormRec) =>
                (⟨vr.clean_id, some vr.clean_amount, some ir.clean_amount⟩ : MergedRow))
          = fun _ => false := by
        funext ir
        simp [hne]
      rw [hconst]
      simp

/-- Key multiplicity contributed by the vendor-driven half of the join. -/
theorem keyCount_flatMap (v i : List NormRec) (k : String) :
    keyCount k (v.flatMap (vendorRows i))
      = recCount k v * (if recCount k i = 0 then 1 else recCount k i) := by
  induction v with
  | nil => simp [keyCount, recCount]
  | cons vr vt ih =>
    rw [List.flatMap_cons]
    have happ : keyCount k (vendorRows i vr ++ vt.flatMap (vendorRows i))
        = keyCount k (vendorRows i vr) + keyCount k (vt.flatMap (vendorRows i)) :=
      List.countP_append _ _ _
    rw [happ, ih, keyCount_vendorRows]
    have hrc : recCount k (vr :: vt)
        = recCount k vt + if (vr.clean_id == k) = true then 1 else 0 :=
      List.countP_cons _ _ _
    rw [hrc]
    by_cases hv : vr.clean_id = k
    · rw [if_pos hv, if_pos (beq_iff_eq.mpr hv)]
      ring
    · rw [if_neg hv, beq_eq_false_iff_ne.mpr hv]
      simp

/-- Key multiplicity contributed by the internal-only half of the join. -/
theorem keyCount_rightOnly (v i : List NormRec) (k : String) :
    keyCount k ((i.filter (fun ir => !(v.any (fun vr => vr.clean_id == ir.clean_id)))).map
        (fun ir => (⟨ir.clean_id, none, some ir.clean_amount⟩ : MergedRow)))
      = if recCount k v = 0 then recCount k i else 0 := by
  rw [keyCount, List.countP_map, List.countP_filter]
  by_cases hv : recCount k v = 0
  · rw [if_pos hv]
    have hnone : ∀ vr ∈ v, (vr.clean_id == k) = false := by
      intro vr hvr
      exact Bool.not_eq_true _ ▸ (List.countP_eq_zero.mp hv vr hvr)
    rw [recCount]
    apply List.countP_congr
    intro ir _
    by_cases hk : ir.clean_id = k
    · have hany : (v.any fun vr => vr.clean_id == k) = false := by
        rw [List.any_eq_false]
        intro vr hvr
        simp [hnone vr hvr]
      simp only [hk, hany]
      simp
      exact hk
    · simp [beq_eq_false_iff_ne.mpr hk]
  · rw [if_neg hv]
    apply List.countP_eq_zero.mpr
    intro ir _
    obtain ⟨vr, hvr, hvk⟩ := List.countP_pos_iff.mp (Nat.pos_of_ne_zero hv)
    by_cases hk : ir.clean_id = k
    · have hany : (v.any fun vr => vr.clean_id == k) = true :=
        List.any_eq_true.mpr ⟨vr, hvr, hvk⟩
      simp only [hk, hany]
      simp
    · simp [beq_eq_false_iff_ne.mpr hk]

/-- C2 (counterexample).  `pd.merge(..., how="outer")` does not collapse
duplicate keys: a key occurring twice on the vendor side yields two output
rows (with both amounts preserved, not only the most recent one), so a key
present in the input need not appear in exactly one output row. -/
theorem C2_counterexample :
    keyCount "A" (merge [⟨"A", 1⟩, ⟨"A", 2⟩] []) = 2 ∧ (2 : ℕ) ≠ 1 ∧
    (merge [⟨"A", 1⟩, ⟨"A", 2⟩] []).map MergedRow.amount_vendor = [some 1, some 2] ∧
    merge [⟨"A", 1⟩, ⟨"A", 2⟩] [⟨"A", 3⟩, ⟨"A", 4⟩]
      = [⟨"A", some 1, some 3⟩, ⟨"A", some 1, some 4⟩,
         ⟨"A", some 2, some 3⟩, ⟨"A", some 2, some 4⟩] := by
  refine ⟨by decide, by decide, by decide, by decide⟩

/-- C2 (amended).  Every canonical key present on either side appears in at
least one output row of the outer join, and a key occurring exactly once per
side appears in exactly one row; but duplicate keys are not collapsed by a
last-write-wins rule: a key occurring `m > 0` times among the vendor records
and `n > 0` times among the internal records yields `m * n` output rows
(`m` rows when `n = 0`, `n` rows when `m = 0`). -/
theorem C2_amended (v i : List NormRec) (k : String) :
    keyCount k (merge v i) =
      if recCount k v = 0 then recCount k i
      else if recCount k i = 0 then recCount k v
      else recCount k v * recCount k i := by
  have happ : keyCount k (merge v i)
      = keyCount k (v.flatMap (vendorRows i))
        + keyCount k ((i.filter (fun ir => !(v.any (fun vr => vr.clean_id == ir.clean_id)))).map
            (fun ir => (⟨ir.clean_id, none, some ir.clean_amount⟩ : MergedRow))) :=
    List.countP_append _ _ _
  rw [happ, keyCount_flatMap, keyCount_rightOnly]
  by_cases hv : recCount k v = 0
  · rw [if_pos hv, if_pos hv, hv]
    by_cases hi : recCount k i = 0 <;> simp [hi]
  · rw [if_neg hv, if_neg hv]
    by_cases hi : recCount k i = 0
    · rw [if_pos hi, if_pos hi]
      ring
    · rw [if_neg hi, if_neg hi]
      ring

/-- A vendor record and an internal record sharing a key always produce a
joined output row carrying both amounts. -/
theorem mem_merge_pair {v i : List NormRec} {vr ir : NormRec} (hv : vr ∈ v) (hi : ir ∈ i)
    (hk : ir.clean_id = vr.clean_id) :
    (⟨vr.clean_id, some vr.clean_amount, some ir.clean_amount⟩ : MergedRow) ∈ merge v i := by
  apply List.mem_append_left
  apply List.mem_flatMap.mpr
  refine ⟨vr, hv, ?_⟩
  rw [vendorRows]
  have hmem : ir ∈ i.filter (fun x => x.clean_id == vr.clean_id) :=
    List.mem_filter.mpr ⟨hi, beq_iff_eq.mpr hk⟩
  have hne : ¬(i.filter (fun x => x.clean_id == vr.clean_id)).isEmpty = true := by
    intro habs
    rw [List.isEmpty_iff.mp habs] at hmem
    exact absurd hmem (List.not_mem_nil ir)
  rw [if_neg hne]
  exact List.mem_map.mpr ⟨ir, hmem, rfl⟩

/-- C5 (counterexample).  Rows whose canonical key normalizes to the empty
string are not excluded from the join: a vendor row with raw identifier
`"000"` and an internal row with raw identifier `"--"` both normalize to the
empty key and are joined with each other into an output row whose
`canonical_key` is empty. -/
theorem C5_counterexample :
    clean_id "000" = "" ∧ clean_id "--" = "" ∧
    merge [⟨clean_id "000", 5⟩] [⟨clean_id "--", 7⟩] = [⟨"", some 5, some 7⟩] := by
  decide

/-- C5 (amended).  Empty canonical keys receive no special treatment: any
vendor record and internal record whose canonical keys are both empty are
joined, producing an output row with empty `clean_id` carrying both
amounts. -/
theorem C5_amended (v i : List NormRec) (vr ir : NormRec)
    (hv : vr ∈ v) (hi : ir ∈ i) (hvk : vr.clean_id = "") (hik : ir.clean_id = "") :
    ∃ r ∈ merge v i, r.clean_id = "" ∧ r.amount_vendor = some vr.clean_amount ∧
      r.amount_internal = some ir.clean_amount := by
  refine ⟨⟨vr.clean_id, some vr.clean_amount, some ir.clean_amount⟩,
    mem_merge_pair hv hi (by rw [hvk, hik]), hvk, rfl, rfl⟩

/-- Witness for C5 on concrete one-row sides with empty keys. -/
theorem C5_witness :
    ∃ r ∈ merge [(⟨"", 5⟩ : NormRec)] [(⟨"", 7⟩ : NormRec)],
      r.clean_id = "" ∧ r.amount_vendor = some ((5 : ℚ)) ∧ r.amount_internal = some ((7 : ℚ)) :=
  C5_amended [⟨"", 5⟩] [⟨"", 7⟩] ⟨"", 5⟩ ⟨"", 7⟩
    (List.mem_singleton.mpr rfl) (List.mem_singleton.mpr rfl) rfl rfl

/-- Lookup with `find?` returns the first element satisfying the predicate: everything
before it in the list fails the predicate. -/
theorem find?_first_decomp {α : Type} {p : α → Bool} :
    ∀ {l : List α} {a : α}, l.find? p = some a →
      ∃ l1 l2, l = l1 ++ a :: l2 ∧ p a = true ∧ ∀ x ∈ l1, p x = false := by
  intro l
  induction l with
  | nil => intro a h; simp [List.find?] at h
  | cons h t ih =>
    intro a hf
    by_cases hp : p h = true
    · rw [List.find?_cons_of_pos t hp] at hf
      obtain rfl : h = a := by injection hf
      exact ⟨[], t, rfl, hp, by simp⟩
    · rw [List.find?_cons_of_neg t hp] at hf
      obtain ⟨l1, l2, hdec, hpa, hfail⟩ := ih hf
      refine ⟨h :: l1, l2, by rw [hdec]; rfl, hpa, ?_⟩
      intro x hx
      rcases List.mem_cons.mp hx with hxh | hxl
      · rw [hxh]
        exact Bool.not_eq_true _ ▸ hp
      · exact hfail x hxl

/-- C7 (counterexample).  The code does not use the spec's keyword sets.  For
the header list `["id", "total"]` the spec's sets contain an identifier
keyword (`"id"`) and an amount keyword (`"total"`), so the claim says
resolution succeeds; but both resolvers in the code fail on it, the vendor
side looking only for `invoice`/`inv` and `amount`/`due`, the internal side
only for `external`+`document` and `amount`. -/
theorem C7_counterexample :
    specHasIdCandidate ["id", "total"] = true ∧
    specHasAmtCandidate ["id", "total"] = true ∧
    resolveVendorSchema ["id", "total"] = none ∧
    resolveInternalSchema ["id", "total"] = none := by
  decide

/-- C7 (amended).  Vendor-side schema resolution fails iff, after trimming
and lowercasing, no column name contains `"invoice"` or `"inv"` or none
contains `"amount"` or `"due"`; internal-side resolution fails iff no column
name contains both `"external"` and `"document"` or none contains
`"amount"`.  When resolution succeeds, each selected column is the first one
in left-to-right order satisfying its keyword predicate. -/
theorem C7_amended (cols : List String) :
    (resolveVendorSchema cols = none ↔
      (∀ c ∈ cols, vendorInvPred (lowerStrip c) = false) ∨
      (∀ c ∈ cols, vendorAmtPred (lowerStrip c) = false)) ∧
    (resolveInternalSchema cols = none ↔
      (∀ c ∈ cols, internalInvPred (lowerStrip c) = false) ∨
      (∀ c ∈ cols, internalAmtPred (lowerStrip c) = false)) ∧
    (∀ ic ac, resolveVendorSchema cols = some (ic, ac) →
      (∃ l1 l2, cols.map lowerStrip = l1 ++ ic :: l2 ∧ vendorInvPred ic = true ∧
        ∀ c ∈ l1, vendorInvPred c = false) ∧
      (∃ l1 l2, cols.map lowerStrip = l1 ++ ac :: l2 ∧ vendorAmtPred ac = true ∧
        ∀ c ∈ l1, vendorAmtPred c = false)) ∧
    (∀ ic ac, resolveInternalSchema cols = some (ic, ac) →
      (∃ l1 l2, cols.map lowerStrip = l1 ++ ic :: l2 ∧ internalInvPred ic = true ∧
        ∀ c ∈ l1, internalInvPred c = false) ∧
      (∃ l1 l2, cols.map lowerStrip = l1 ++ ac :: l2 ∧ internalAmtPred ac = true ∧
        ∀ c ∈ l1, internalAmtPred c = false)) := by
  have hnone : ∀ (p : String → Bool),
      ((cols.map lowerStrip).find? p = none ↔ ∀ c ∈ cols, p (lowerStrip c) = false) := by
    intro p
    rw [List.find?_eq_none]
    constructor
    · intro h c hc
      exact Bool.not_eq_true _ ▸ h (lowerStrip c) (List.mem_map_of_mem lowerStrip hc)
    · intro h x hx
      obtain ⟨c, hc, rfl⟩ := List.mem_map.mp hx
      rw [h c hc]
      simp
  refine ⟨?_, ?_, ?_, ?_⟩
  · rw [resolveVendorSchema]
    cases hI : (cols.map lowerStrip).find? vendorInvPred with
    | none =>
      simp only
      exact ⟨fun _ => Or.inl ((hnone vendorInvPred).mp hI), fun _ => trivial⟩
    | some ic =>
      cases hA : (cols.map lowerStrip).find? vendorAmtPred with
      | none =>
        simp only
        exact ⟨fun _ => Or.inr ((hnone vendorAmtPred).mp hA), fun _ => trivial⟩
      | some ac =>
        simp only
        constructor
        · intro h
          exact absurd h (by simp)
        · rintro (h | h)
          · rw [(hnone vendorInvPred).mpr h] at hI
            exact absurd hI (by simp)
          · rw [(hnone vendorAmtPred).mpr h] at hA
            exact absurd hA (by simp)
  · rw [resolveInternalSchema]
    cases hI : (cols.map lowerStrip).find? internalInvPred with
    | none =>
      simp only
      exact ⟨fun _ => Or.inl ((hnone internalInvPred).mp hI), fun _ => trivial⟩
    | some ic =>
      cases hA : (cols.map lowerStrip).find? internalAmtPred with
      | none =>
        simp only
        exact ⟨fun _ => Or.inr ((hnone internalAmtPred).mp hA), fun _ => trivial⟩
      | some ac =>
        simp only
        constructor
        · intro h
          exact absurd h (by simp)
        · rintro (h | h)
          · rw [(hnone internalInvPred).mpr h] at hI
            exact absurd hI (by simp)
          · rw [(hnone internalAmtPred).mpr h] at hA
            exact absurd hA (by simp)
  · intro ic ac h
    rw [resolveVendorSchema] at h
    cases hI : (cols.map lowerStrip).find? vendorInvPred with
    | none => rw [hI] at h; exact absurd h (by simp)
    | some ic' =>
      cases hA : (cols.map lowerStrip).find? vendorAmtPred with
      | none => rw [hI, hA] at h; exact absurd h (by simp)
      | some ac' =>
        rw [hI, hA] at h
        simp only [Option.some.injEq, Prod.mk.injEq] at h
        obtain ⟨rfl, rfl⟩ := h
        exact ⟨find?_first_decomp hI, find?_first_decomp hA⟩
  · intro ic ac h
    rw [resolveInternalSchema] at h
    cases hI : (cols.map lowerStrip).find? internalInvPred with
    | none => rw [hI] at h; exact absurd h (by simp)
    | some ic' =>
      cases hA : (cols.map lowerStrip).find? internalAmtPred with
      | none => rw [hI, hA] at h; exact absurd h (by simp)
      | some ac' =>
        rw [hI, hA] at h
        simp only [Option.some.injEq, Prod.mk.injEq] at h
        obtain ⟨rfl, rfl⟩ := h
        exact ⟨find?_first_decomp hI, find?_first_decomp hA⟩

/-- Witness for C7: a failing and a succeeding concrete header list. -/
theorem C7_witness :
    resolveVendorSchema ["Qty"] = none ∧
    (∃ l1 l2, (["Invoice No", "Amount Due"].map lowerStrip) = l1 ++ "invoice no" :: l2 ∧
      vendorInvPred "invoice no" = true ∧ ∀ c ∈ l1, vendorInvPred c = false) :=
  ⟨(C7_amended ["Qty"]).1.mpr (Or.inl (by decide)),
   ((C7_amended ["Invoice No", "Amount Due"]).2.2.1 "invoice no" "amount due" (by decide)).1⟩

/-- Scanning the pool with a current best `b` (whose stored score is
`score q b`) yields the first maximal candidate of `b :: pool`. -/
theorem extractOneAux_spec (score : String → String → ℕ) (q : String) :
    ∀ (cs : List String) (b : String), ∃ c,
      extractOneAux score q (some (b, score q b)) cs = some (c, score q c) ∧
      IsFirstMax (score q) (b :: cs) c := by
  intro cs
  induction cs with
  | nil =>
    intro b
    exact ⟨b, rfl, [], [], rfl, by simp, by simp⟩
  | cons x t ih =>
    intro b
    rw [extractOneAux]
    by_cases h : score q b < score q x
    · rw [if_pos h]
      obtain ⟨c, heq, l1, l2, hdec, hlt, hle⟩ := ih x
      refine ⟨c, heq, ?_⟩
      cases l1 with
      | nil =>
        obtain ⟨rfl, rfl⟩ : x = c ∧ t = l2 := by
          have := hdec
          simp only [List.nil_append, List.cons.injEq] at this
          exact this
        exact ⟨[b], t, rfl, by simpa using h, hle⟩
      | cons y l1' =>
        obtain ⟨rfl, hdec'⟩ : x = y ∧ t = l1' ++ c :: l2 := by
          have := hdec
          simp only [List.cons_append, List.cons.injEq] at this
          exact this
        have hxc : score q x < score q c := hlt x (by simp)
        refine ⟨b :: x :: l1', l2, by rw [hdec']; rfl, ?_, hle⟩
        intro z hz
        rcases List.mem_cons.mp hz with rfl | hz'
        · exact lt_trans h hxc
        · rcases List.mem_cons.mp hz' with rfl | hz''
          · exact hxc
          · exact hlt z (by simp [hz''])
    · rw [if_neg h]
      obtain ⟨c, heq, l1, l2, hdec, hlt, hle⟩ := ih b
      refine ⟨c, heq, ?_⟩
      cases l1 with
      | nil =>
        obtain ⟨rfl, rfl⟩ : b = c ∧ t = l2 := by
          have := hdec
          simp only [List.nil_append, List.cons.injEq] at this
          exact this
        refine ⟨[], x :: t, rfl, by simp, ?_⟩
        intro z hz
        rcases List.mem_cons.mp hz with rfl | hz'
        · exact Nat.le_of_not_lt h
        · exact hle z hz'
      | cons y l1' =>
        obtain ⟨rfl, hdec'⟩ : b = y ∧ t = l1' ++ c :: l2 := by
          have := hdec
          simp only [List.cons_append, List.cons.injEq] at this
          exact this
        have hbc : score q b < score q c := hlt b (by simp)
        refine ⟨b :: x :: l1', l2, by rw [hdec']; rfl, ?_, hle⟩
        intro z hz
        rcases List.mem_cons.mp hz with rfl | hz'
        · exact hbc
        · rcases List.mem_cons.mp hz' with rfl | hz''
          · exact lt_of_le_of_lt (Nat.le_of_not_lt h) hbc
          · exact hlt z (by simp [hz''])

/-- C9 (confirmed).  The suggestion pass is a pure function of the scorer,
the rows, the candidate pool and the threshold — two runs on the same inputs
return the same output — and `extractOne` resolves ties deterministically in
favour of the candidate occurring first in pool order: whenever it returns
`(c, s)`, `s` is `c`'s score, every candidate before `c` in the pool scores
strictly less and every candidate after it scores no more. -/
theorem C9_suggestion_deterministic :
    (∀ (score : String → String → ℕ) (recon : List StatusRow) (internal : List NormRec)
      (thr : ℕ), perform_fuzzy_check score recon internal thr
        = perform_fuzzy_check score recon internal thr) ∧
    (∀ (score : String → String → ℕ) (q : String) (choices : List String) (c : String) (s : ℕ),
      extractOne score q choices = some (c, s) →
        s = score q c ∧ IsFirstMax (score q) choices c) := by
  refine ⟨fun _ _ _ _ => rfl, ?_⟩
  intro score q choices c s h
  cases choices with
  | nil => exact absurd h (by simp [extractOne, extractOneAux])
  | cons x t =>
    have hstep : extractOne score q (x :: t)
        = extractOneAux score q (some (x, score q x)) t := by
      rw [extractOne, extractOneAux]
    obtain ⟨c', heq, hmax⟩ := extractOneAux_spec score q t x
    rw [hstep, heq] at h
    obtain ⟨rfl, rfl⟩ : c' = c ∧ score q c' = s := by
      simp only [Option.some.injEq, Prod.mk.injEq] at h
      exact h
    exact ⟨rfl, hmax⟩

/-- Witness for C9 on a concrete pool with a tied top score: the earlier of
the two top-scoring candidates is returned. -/
theorem C9_witness :
    extractOne (fun _ c => if c == "B" || c == "C" then 90 else 10) "Q" ["A", "B", "C"]
      = some ("B", 90) ∧
    90 = (fun _ c => if c == "B" || c == "C" then 90 else 10) "Q" "B" ∧
    IsFirstMax ((fun _ c => if c == "B" || c == "C" then 90 else 10) "Q") ["A", "B", "C"] "B" :=
  ⟨by decide,
   (C9_suggestion_deterministic.2 (fun _ c => if c == "B" || c == "C" then 90 else 10)
      "Q" ["A", "B", "C"] "B" 90 (by decide)).1,
   (C9_suggestion_deterministic.2 (fun _ c => if c == "B" || c == "C" then 90 else 10)
      "Q" ["A", "B", "C"] "B" 90 (by decide)).2⟩

/-- C3 (counterexample).  When the best fuzzy score meets the threshold, the
row's status field does not remain `"Missing in Books"`: the code overwrites
it with a `"Suggested Match: ..."` string (there is no separate suggestion
field on the row). -/
theorem C3_counterexample :
    (perform_fuzzy_check (fun _ _ => 95)
        [⟨"ABC123", some 10, none, 10, "Missing in Books"⟩] [⟨"ABC124", 7⟩] 90).map
          StatusRow.status
      = ["Suggested Match: ABC124 (95%)"] ∧
    ("Suggested Match: ABC124 (95%)" : String) ≠ "Missing in Books" := by
  decide

/-- C3 (amended).  When a row passes the guards (status `"Missing in
Books"`, positive vendor amount, key length at least 6, non-empty pool) and
the best fuzzy score meets the threshold, the suggestion is recorded by
overwriting the row's status field with the string
`"Suggested Match: <candidate> (<score>%)"`; every other field of the row is
left unchanged, and no separate suggestion annotation exists. -/
theorem C3_amended (score : String → String → ℕ) (thr : ℕ) (choices : List String)
    (r : StatusRow) (m : String) (s : ℕ)
    (hst : r.status = "Missing in Books") (hamt : vendorGtZero r.vendorAmt = true)
    (hlen : 6 ≤ r.invoice.length)
    (hext : extractOne score r.invoice choices = some (m, s)) (hthr : thr ≤ s) :
    (fuzzy_row score thr choices r).status
        = "Suggested Match: " ++ m ++ " (" ++ toString s ++ "%)" ∧
    (fuzzy_row score thr choices r).invoice = r.invoice ∧
    (fuzzy_row score thr choices r).vendorAmt = r.vendorAmt ∧
    (fuzzy_row score thr choices r).booksAmt = r.booksAmt ∧
    (fuzzy_row score thr choices r).variance = r.variance := by
  have hch : choices ≠ [] := by
    intro hc
    rw [hc] at hext
    exact absurd hext (by simp [extractOne, extractOneAux])
  have hguard : (r.status == "Missing in Books" && vendorGtZero r.vendorAmt
      && decide (6 ≤ r.invoice.length) && !choices.isEmpty) = true := by
    simp [hst, hamt, hlen, List.isEmpty_iff, hch]
  rw [fuzzy_row, if_pos hguard]
  simp only [hext]
  rw [if_pos hthr]
  exact ⟨rfl, rfl, rfl, rfl, rfl⟩

/-- Witness for C3 on a concrete row, pool and scorer. -/
theorem C3_witness :
    (fuzzy_row (fun _ _ => 95) 90 ["ABC124"]
        ⟨"ABC123", some 10, none, 10, "Missing in Books"⟩).status
      = "Suggested Match: " ++ "ABC124" ++ " (" ++ toString 95 ++ "%)" ∧
    (fuzzy_row (fun _ _ => 95) 90 ["ABC124"]
        ⟨"ABC123", some 10, none, 10, "Missing in Books"⟩).invoice = "ABC123" ∧
    (fuzzy_row (fun _ _ => 95) 90 ["ABC124"]
        ⟨"ABC123", some 10, none, 10, "Missing in Books"⟩).vendorAmt = some 10 ∧
    (fuzzy_row (fun _ _ => 95) 90 ["ABC124"]
        ⟨"ABC123", some 10, none, 10, "Missing in Books"⟩).booksAmt = none ∧
    (fuzzy_row (fun _ _ => 95) 90 ["ABC124"]
        ⟨"ABC123", some 10, none, 10, "Missing in Books"⟩).variance = 10 :=
  C3_amended (fun _ _ => 95) 90 ["ABC124"]
    ⟨"ABC123", some 10, none, 10, "Missing in Books"⟩ "ABC124" 95
    rfl (by decide) (by decide) (by decide) (by decide)

/-- C8 (counterexample).  The rounding applied after parsing is numpy's
round-half-to-even, not half-up: `"0.125"` parses to `1/8` and rounds to
`0.12 = 3/25`, while the claimed half-up rounding of `0.125` gives
`0.13 = 13/100`. -/
theorem C8_counterexample :
    clean_amount_vendor "0.125" = 3/25 ∧ roundHalfUp2 (125/1000) = 13/100 ∧
    ((3 : ℚ)/25) ≠ 13/100 := by
  refine ⟨?_, ?_, by norm_num⟩
  · have hs : stripAmountChars "0.125" = ['0', '.', '1', '2', '5'] := by decide
    have hp : toNumericCoerce ['0', '.', '1', '2', '5']
        = some ((digitsNat ['0'] : ℚ) + (digitsNat ['1', '2', '5'] : ℚ) / 10 ^ 3) := by rfl
    have h1 : digitsNat ['0'] = 0 := by decide
    have h2 : digitsNat ['1', '2', '5'] = 125 := by decide
    rw [clean_amount_vendor, hs, hp, h1, h2]
    have hv : ((0 : ℕ) : ℚ) + ((125 : ℕ) : ℚ) / 10 ^ 3 = 1/8 := by norm_num
    rw [Option.getD_some, hv, roundHalfEven2, roundHalfEvenInt]
    have hf : ((1 : ℚ)/8) * 100 = 25/2 := by norm_num
    rw [hf]
    have hfl : ⌊(25/2 : ℚ)⌋ = 12 := by norm_num [Int.floor_eq_iff]
    rw [hfl]
    norm_num
  · rw [roundHalfUp2]
    have h13 : (125 : ℚ)/1000 * 100 + 1/2 = 13 := by norm_num
    rw [h13]
    norm_num

/-- C8 (amended).  Amount parsing is total: when numeric coercion fails the
amount defaults to `0` on both sides; when it succeeds the value is rounded
to 2 fractional digits — but with ties rounded to the even hundredth
(numpy's round-half-to-even), not upward: a tie sitting on an even hundredth
stays, one on an odd hundredth moves up to the next even hundredth. -/
theorem C8_amended :
    (∀ s : String, toNumericCoerce (stripAmountChars s) = none →
      clean_amount_vendor s = 0 ∧ clean_amount_internal s = 0) ∧
    (∀ (s : String) (q : ℚ), toNumericCoerce (stripAmountChars s) = some q →
      clean_amount_vendor s = roundHalfEven2 q) ∧
    (∀ n : ℤ, roundHalfEven2 (((2 * n : ℤ) : ℚ)/100 + 1/200) = ((2 * n : ℤ) : ℚ)/100) ∧
    (∀ n : ℤ, roundHalfEven2 (((2 * n + 1 : ℤ) : ℚ)/100 + 1/200)
      = ((2 * n + 2 : ℤ) : ℚ)/100) := by
  refine ⟨?_, ?_, ?_, ?_⟩
  · intro s h
    constructor
    · rw [clean_amount_vendor, h, Option.getD_none, roundHalfEven2, roundHalfEvenInt]
      norm_num
    · rw [clean_amount_internal, h, Option.getD_none, abs_zero, roundHalfEven2,
        roundHalfEvenInt]
      norm_num
  · intro s q h
    rw [clean_amount_vendor, h, Option.getD_some]
  · intro n
    have hx : (((2 * n : ℤ) : ℚ)/100 + 1/200) * 100 = ((2 * n : ℤ) : ℚ) + 1/2 := by
      push_cast
      ring
    have hfl : ⌊((2 * n : ℤ) : ℚ) + 1/2⌋ = 2 * n := by
      rw [Int.floor_eq_iff]
      constructor
      · push_cast
        linarith
      · push_cast
        linarith
    have hpar : (2 * n) % 2 = 0 := Int.mul_emod_right 2 n
    simp only [roundHalfEven2, roundHalfEvenInt]
    rw [hx, hfl]
    rw [if_neg (by push_cast; linarith), if_neg (by push_cast; linarith), if_pos hpar]
  · intro n
    have hx : (((2 * n + 1 : ℤ) : ℚ)/100 + 1/200) * 100 = ((2 * n + 1 : ℤ) : ℚ) + 1/2 := by
      push_cast
      ring
    have hfl : ⌊((2 * n + 1 : ℤ) : ℚ) + 1/2⌋ = 2 * n + 1 := by
      rw [Int.floor_eq_iff]
      constructor
      · push_cast
        linarith
      · push_cast
        linarith
    have hpar : ¬((2 * n + 1) % 2 = 0) := by omega
    simp only [roundHalfEven2, roundHalfEvenInt]
    rw [hx, hfl]
    rw [if_neg (by push_cast; linarith), if_neg (by push_cast; linarith), if_neg hpar]
    push_cast
    ring

/-- Witness for C8: a malformed cell defaulting to zero on both sides, and a
tie on an even hundredth left in place. -/
theorem C8_witness :
    clean_amount_vendor "abc" = 0 ∧ clean_amount_internal "abc" = 0 ∧
    roundHalfEven2 (((2 * (6 : ℤ) : ℤ) : ℚ)/100 + 1/200) = ((2 * (6 : ℤ) : ℤ) : ℚ)/100 :=
  ⟨(C8_amended.1 "abc" rfl).1, (C8_amended.1 "abc" rfl).2, C8_amended.2.2.1 6⟩

end ReconDash
